import Mathlib

/-!
Verification of the calibration model and signal-conditioning pipeline of the
`micropython-rp2040-joystick` library (`src/joystick.py`).

The Python code is shallowly embedded: machine integers (u16 ADC samples) are
modelled as `ℤ`, Python float arithmetic on those integers as exact `ℚ`
arithmetic, and Python's `round` (round half to even, as used by
CPython/MicroPython on these values) as `pyRound`.  Hardware reads and the
interactive prompt are modelled as explicit inputs; the calibration file is a
list of lines.
-/

set_option maxHeartbeats 1000000

/-- Python's built-in one-argument `round` on an exact rational value:
round to the nearest integer, ties going to the even integer. -/
def pyRound (q : ℚ) : ℤ :=
  if q - ⌊q⌋ < 1/2 then ⌊q⌋
  else if 1/2 < q - ⌊q⌋ then ⌊q⌋ + 1
  else if ⌊q⌋ % 2 = 0 then ⌊q⌋ else ⌊q⌋ + 1

lemma pyRound_intCast (n : ℤ) : pyRound (n : ℚ) = n := by
  have h0 : ((n : ℚ) - ⌊(n : ℚ)⌋) = 0 := by
    rw [Int.floor_intCast]; ring
  unfold pyRound
  rw [h0, Int.floor_intCast]
  norm_num

lemma floor_le_pyRound (q : ℚ) : ⌊q⌋ ≤ pyRound q := by
  unfold pyRound; split_ifs <;> omega

lemma pyRound_le_floor_add_one (q : ℚ) : pyRound q ≤ ⌊q⌋ + 1 := by
  unfold pyRound; split_ifs <;> omega

lemma pyRound_mono {a b : ℚ} (h : a ≤ b) : pyRound a ≤ pyRound b := by
  have hfl : ⌊a⌋ ≤ ⌊b⌋ := Int.floor_mono h
  rcases lt_or_eq_of_le hfl with hlt | heq
  · calc pyRound a ≤ ⌊a⌋ + 1 := pyRound_le_floor_add_one a
      _ ≤ ⌊b⌋ := by omega
      _ ≤ pyRound b := floor_le_pyRound b
  · have hfrac : a - ⌊a⌋ ≤ b - ⌊b⌋ := by
      rw [← heq]; exact sub_le_sub_right h _
    unfold pyRound
    rw [← heq]
    split_ifs <;> first | omega | (exfalso; linarith)

/-- The source's `round(min(100, max(0, percent)))` clamp-then-round. -/
def clampQ (q : ℚ) : ℚ := min 100 (max 0 q)

/-- `Joystick.converter` (src/joystick.py lines 164-187), with the state and
the sampled value made explicit: `mid1`/`mid2` are the low/high entries of
`self.middle[axis - 1]`, `maxval` is the direction's calibrated extreme, and
`val` is the oversampled raw sample returned by `axis_reader`. -/
def converter (mid1 mid2 maxval val : ℤ) : ℤ :=
  if val > mid2 then
    pyRound (clampQ (((val : ℚ) - (mid2 : ℚ)) / ((maxval : ℚ) - (mid2 : ℚ)) * 100))
  else if val < mid1 then
    pyRound (clampQ (((mid1 : ℚ) - (val : ℚ)) / ((mid1 : ℚ) - (maxval : ℚ)) * 100))
  else 0

/-- Spec-side formula for samples above the deadzone:
`round(clamp((raw - high) / (extreme_raw - high) * 100, 0, 100))`. -/
def percentSpecOver (high maxval raw : ℤ) : ℤ :=
  pyRound (clampQ (((raw : ℚ) - (high : ℚ)) / ((maxval : ℚ) - (high : ℚ)) * 100))

/-- Spec-side formula for samples below the deadzone:
`round(clamp((low - raw) / (low - extreme_raw) * 100, 0, 100))`. -/
def percentSpecUnder (low maxval raw : ℤ) : ℤ :=
  pyRound (clampQ (((low : ℚ) - (raw : ℚ)) / ((low : ℚ) - (maxval : ℚ)) * 100))

/-- C1: for every axis sample, `converter` returns the spec's over-formula when
the oversampled raw value exceeds the high deadzone bound, the spec's
under-formula when it is below the low bound, and `0` for every raw value
strictly between `low` and `high` (with `extreme_raw` different from the bound
used, so the division is defined). -/
theorem converter_cases (low high maxval val : ℤ) (hband : low ≤ high) :
    (high < val → maxval ≠ high →
      converter low high maxval val = percentSpecOver high maxval val)
    ∧ (val < low → maxval ≠ low →
      converter low high maxval val = percentSpecUnder low maxval val)
    ∧ (low < val → val < high → converter low high maxval val = 0) := by
  refine ⟨?_, ?_, ?_⟩
  · intro h1 _
    unfold converter percentSpecOver
    rw [if_pos h1]
  · intro h1 _
    unfold converter percentSpecUnder
    rw [if_neg (by omega), if_pos h1]
  · intro h1 h2
    unfold converter
    rw [if_neg (by omega), if_neg (by omega)]

theorem converter_cases_witness :
    converter 90 110 210 160 = percentSpecOver 110 210 160
    ∧ converter 90 110 40 70 = percentSpecUnder 90 40 70
    ∧ converter 90 110 210 100 = 0 :=
  ⟨(converter_cases 90 110 210 160 (by decide)).1 (by decide) (by decide),
   (converter_cases 90 110 40 70 (by decide)).2.1 (by decide) (by decide),
   (converter_cases 90 110 210 100 (by decide)).2.2 (by decide) (by decide)⟩

/-- C9: when the oversampled raw value equals the low or the high deadzone
bound exactly, `converter` returns 0 — the deadzone band is inclusive at both
bounds, so the divisions are executed only strictly outside the band. -/
theorem converter_at_bounds (low high maxval : ℤ) (hband : low ≤ high) :
    converter low high maxval low = 0 ∧ converter low high maxval high = 0 := by
  constructor
  · unfold converter
    rw [if_neg (by omega), if_neg (by omega)]
  · unfold converter
    rw [if_neg (by omega), if_neg (by omega)]

theorem converter_at_bounds_witness :
    converter 31785 33751 10000 31785 = 0 ∧ converter 31785 33751 10000 33751 = 0 :=
  converter_at_bounds 31785 33751 10000 (by decide)

lemma clampQ_mono {a b : ℚ} (h : a ≤ b) : clampQ a ≤ clampQ b :=
  min_le_min (le_refl _) (max_le_max (le_refl _) h)

lemma clampQ_of_hundred_le {q : ℚ} (h : 100 ≤ q) : clampQ q = 100 :=
  min_eq_left (le_trans h (le_max_right 0 q))

lemma pyRound_hundred : pyRound (100 : ℚ) = 100 := by
  have h := pyRound_intCast 100
  push_cast at h
  exact h

lemma converter_of_high {low high maxval val : ℤ} (h : high < val) :
    converter low high maxval val
      = pyRound (clampQ (((val : ℚ) - (high : ℚ)) / ((maxval : ℚ) - (high : ℚ)) * 100)) := by
  unfold converter
  rw [if_pos h]

lemma converter_of_low {low high maxval val : ℤ} (hband : low ≤ high) (h : val < low) :
    converter low high maxval val
      = pyRound (clampQ (((low : ℚ) - (val : ℚ)) / ((low : ℚ) - (maxval : ℚ)) * 100)) := by
  unfold converter
  rw [if_neg (by omega), if_pos h]

/-- C4 (counterexample to the claim as literally stated): with the deadzone band
`[31785, 32768, 33751]` and `extreme_raw = 10000` (strictly beyond the low
bound), the raw samples `20000` and `50000` are both outside the deadzone and
`50000` is farther from the center, yet `converter` drops from a positive
percentage at `20000` to `0` at `50000`: the percentage is not monotonically
non-decreasing in `|raw - center|` over all samples outside the deadzone. -/
theorem converter_not_monotone_in_distance :
    (31785 : ℤ) ≤ 32768 ∧ (32768 : ℤ) ≤ 33751
    ∧ (10000 : ℤ) < 31785
    ∧ (20000 : ℤ) < 31785 ∧ (33751 : ℤ) < 50000
    ∧ |(20000 : ℤ) - 32768| ≤ |(50000 : ℤ) - 32768|
    ∧ converter 31785 33751 10000 50000 < converter 31785 33751 10000 20000 := by
  have h1 : converter 31785 33751 10000 50000 = 0 := by
    norm_num [converter, clampQ, pyRound]
  have h2 : converter 31785 33751 10000 20000 = 54 := by
    norm_num [converter, clampQ, pyRound]
  rw [h1, h2]
  norm_num

/-- C4 (amended): outside the deadzone and **on the side of the band that
`extreme_raw` lies beyond**, the percentage returned by `converter` is
monotonically non-decreasing in the distance `|raw - center|`, and it equals
exactly 100 for every raw value that reaches or passes `extreme_raw`.  (On the
opposite side of the band the percentage is clamped to 0, so the literal
two-sided monotonicity claim fails; see the counterexample.) -/
theorem converter_monotone_saturates (low high center maxval : ℤ)
    (hlc : low ≤ center) (hch : center ≤ high) :
    (∀ r1 r2 : ℤ, high < maxval → high < r1 → high < r2 →
        |r1 - center| ≤ |r2 - center| →
        converter low high maxval r1 ≤ converter low high maxval r2)
    ∧ (∀ r : ℤ, high < maxval → maxval ≤ r → converter low high maxval r = 100)
    ∧ (∀ r1 r2 : ℤ, maxval < low → r1 < low → r2 < low →
        |r1 - center| ≤ |r2 - center| →
        converter low high maxval r1 ≤ converter low high maxval r2)
    ∧ (∀ r : ℤ, maxval < low → r ≤ maxval → converter low high maxval r = 100) := by
  refine ⟨?_, ?_, ?_, ?_⟩
  · intro r1 r2 hE h1 h2 habs
    have e1 : |r1 - center| = r1 - center := abs_of_nonneg (by omega)
    have e2 : |r2 - center| = r2 - center := abs_of_nonneg (by omega)
    have hr : r1 ≤ r2 := by rw [e1, e2] at habs; omega
    rw [converter_of_high h1, converter_of_high h2]
    apply pyRound_mono
    apply clampQ_mono
    have hpos : (0 : ℚ) < (maxval : ℚ) - (high : ℚ) := by
      have : (high : ℚ) < (maxval : ℚ) := by exact_mod_cast hE
      linarith
    have hq : (r1 : ℚ) ≤ (r2 : ℚ) := by exact_mod_cast hr
    gcongr
  · intro r hE hr
    have h1 : high < r := by omega
    rw [converter_of_high h1]
    have hpos : (0 : ℚ) < (maxval : ℚ) - (high : ℚ) := by
      have : (high : ℚ) < (maxval : ℚ) := by exact_mod_cast hE
      linarith
    have hge : (maxval : ℚ) - (high : ℚ) ≤ (r : ℚ) - (high : ℚ) := by
      have : (maxval : ℚ) ≤ (r : ℚ) := by exact_mod_cast hr
      linarith
    have hone : (1 : ℚ) ≤ ((r : ℚ) - (high : ℚ)) / ((maxval : ℚ) - (high : ℚ)) :=
      (one_le_div hpos).mpr hge
    have h100 : (100 : ℚ) ≤ ((r : ℚ) - (high : ℚ)) / ((maxval : ℚ) - (high : ℚ)) * 100 := by
      nlinarith
    rw [clampQ_of_hundred_le h100, pyRound_hundred]
  · intro r1 r2 hE h1 h2 habs
    have e1 : |r1 - center| = -(r1 - center) := abs_of_nonpos (by omega)
    have e2 : |r2 - center| = -(r2 - center) := abs_of_nonpos (by omega)
    have hr : r2 ≤ r1 := by rw [e1, e2] at habs; omega
    rw [converter_of_low (by omega) h1, converter_of_low (by omega) h2]
    apply pyRound_mono
    apply clampQ_mono
    have hpos : (0 : ℚ) < (low : ℚ) - (maxval : ℚ) := by
      have : (maxval : ℚ) < (low : ℚ) := by exact_mod_cast hE
      linarith
    have hq : (r2 : ℚ) ≤ (r1 : ℚ) := by exact_mod_cast hr
    gcongr
  · intro r hE hr
    have h1 : r < low := by omega
    rw [converter_of_low (by omega) h1]
    have hpos : (0 : ℚ) < (low : ℚ) - (maxval : ℚ) := by
      have : (maxval : ℚ) < (low : ℚ) := by exact_mod_cast hE
      linarith
    have hge : (low : ℚ) - (maxval : ℚ) ≤ (low : ℚ) - (r : ℚ) := by
      have : (r : ℚ) ≤ (maxval : ℚ) := by exact_mod_cast hr
      linarith
    have hone : (1 : ℚ) ≤ ((low : ℚ) - (r : ℚ)) / ((low : ℚ) - (maxval : ℚ)) :=
      (one_le_div hpos).mpr hge
    have h100 : (100 : ℚ) ≤ ((low : ℚ) - (r : ℚ)) / ((low : ℚ) - (maxval : ℚ)) * 100 := by
      nlinarith
    rw [clampQ_of_hundred_le h100, pyRound_hundred]

/-- Result type of `max_direction` / `get`: Python returns `None`, a direction
or `"button"` name (a string), or a `[name, percent]` pair. -/
inductive JSResult where
  | none : JSResult
  | str : String → JSResult
  | pair : String → ℤ → JSResult
deriving DecidableEq

/-- Stable insertion of one `[direction, percent]` pair into a list sorted by
percent descending: the new element goes before the first strictly smaller
percent and also before equal percents, because it stems from an earlier
position of the evaluation order.  Together with `sortDesc` this models
Python's stable `list.sort(key=lambda x: x[1], reverse=True)`. -/
def insertDesc (x : String × ℤ) : List (String × ℤ) → List (String × ℤ)
  | [] => [x]
  | y :: ys => if y.2 ≤ x.2 then x :: y :: ys else y :: insertDesc x ys

/-- Stable sort by percent descending (any stable sort produces the same list
as Python's Timsort). -/
def sortDesc (l : List (String × ℤ)) : List (String × ℤ) := l.foldr insertDesc []

/-- `Joystick.max_direction` (src/joystick.py lines 213-234): `pu`, `pd`, `pr`,
`pl` are the percentages produced by `up(True)`, `down(True)`, `right(True)`,
`left(True)`, evaluated in that fixed order. -/
def max_direction (as_bool : Bool) (pu pd pr pl : ℤ) : JSResult :=
  match sortDesc [("up", pu), ("down", pd), ("right", pr), ("left", pl)] with
  | [] => JSResult.none
  | top :: _ =>
    if top.2 = 0 then JSResult.none
    else if as_bool then
      if 50 < top.2 then JSResult.str top.1 else JSResult.none
    else JSResult.pair top.1 top.2

/-- Spec-side maximum of the four direction percentages. -/
def maxPercent (pu pd pr pl : ℤ) : ℤ := max (max (max pu pd) pr) pl

/-- Spec-side tie-break: the first direction of the fixed evaluation order
`[up, down, right, left]` whose percentage attains the maximum. -/
def firstMaxDir (pu pd pr pl : ℤ) : String :=
  if pu = maxPercent pu pd pr pl then "up"
  else if pd = maxPercent pu pd pr pl then "down"
  else if pr = maxPercent pu pd pr pl then "right"
  else "left"

lemma insertDesc_cons_pos {x y : String × ℤ} {ys : List (String × ℤ)} (h : y.2 ≤ x.2) :
    insertDesc x (y :: ys) = x :: y :: ys := by
  simp only [insertDesc]
  rw [if_pos h]

lemma insertDesc_cons_neg {x y : String × ℤ} {ys : List (String × ℤ)} (h : ¬ y.2 ≤ x.2) :
    insertDesc x (y :: ys) = y :: insertDesc x ys := by
  simp only [insertDesc]
  rw [if_neg h]

lemma sortDesc_four_head (pu pd pr pl : ℤ) :
    (sortDesc [("up", pu), ("down", pd), ("right", pr), ("left", pl)]).head?
      = some (firstMaxDir pu pd pr pl, maxPercent pu pd pr pl) := by
  show (insertDesc ("up", pu) (insertDesc ("down", pd)
      (insertDesc ("right", pr) [("left", pl)]))).head? = _
  by_cases c1 : pl ≤ pr
  · rw [insertDesc_cons_pos c1]
    by_cases c2 : pr ≤ pd
    · rw [insertDesc_cons_pos c2]
      by_cases c3 : pd ≤ pu
      · rw [insertDesc_cons_pos c3]
        simp only [List.head?_cons, Option.some.injEq]
        have hm : maxPercent pu pd pr pl = pu := by unfold maxPercent; omega
        unfold firstMaxDir
        rw [hm, if_pos rfl]
      · rw [insertDesc_cons_neg c3]
        simp only [List.head?_cons, Option.some.injEq]
        have hm : maxPercent pu pd pr pl = pd := by unfold maxPercent; omega
        unfold firstMaxDir
        rw [hm, if_neg (by omega), if_pos rfl]
    · rw [insertDesc_cons_neg c2]
      by_cases c3 : pr ≤ pu
      · rw [insertDesc_cons_pos c3]
        simp only [List.head?_cons, Option.some.injEq]
        have hm : maxPercent pu pd pr pl = pu := by unfold maxPercent; omega
        unfold firstMaxDir
        rw [hm, if_pos rfl]
      · rw [insertDesc_cons_neg c3]
        simp only [List.head?_cons, Option.some.injEq]
        have hm : maxPercent pu pd pr pl = pr := by unfold maxPercent; omega
        unfold firstMaxDir
        rw [hm, if_neg (by omega), if_neg (by omega), if_pos rfl]
  · rw [insertDesc_cons_neg c1]
    by_cases c2 : pl ≤ pd
    · rw [insertDesc_cons_pos c2]
      by_cases c3 : pd ≤ pu
      · rw [insertDesc_cons_pos c3]
        simp only [List.head?_cons, Option.some.injEq]
        have hm : maxPercent pu pd pr pl = pu := by unfold maxPercent; omega
        unfold firstMaxDir
        rw [hm, if_pos rfl]
      · rw [insertDesc_cons_neg c3]
        simp only [List.head?_cons, Option.some.injEq]
        have hm : maxPercent pu pd pr pl = pd := by unfold maxPercent; omega
        unfold firstMaxDir
        rw [hm, if_neg (by omega), if_pos rfl]
    · rw [insertDesc_cons_neg c2]
      by_cases c3 : pl ≤ pu
      · rw [insertDesc_cons_pos c3]
        simp only [List.head?_cons, Option.some.injEq]
        have hm : maxPercent pu pd pr pl = pu := by unfold maxPercent; omega
        unfold firstMaxDir
        rw [hm, if_pos rfl]
      · rw [insertDesc_cons_neg c3]
        simp only [List.head?_cons, Option.some.injEq]
        have hm : maxPercent pu pd pr pl = pl := by unfold maxPercent; omega
        unfold firstMaxDir
        rw [hm, if_neg (by omega), if_neg (by omega), if_neg (by omega)]

/-- C2: `max_direction` evaluates the four percentages in the fixed order
`[up, down, right, left]` and picks the maximum, ties broken in favour of the
first direction attaining it (stable descending sort).  With `as_bool = false`
it returns `None` exactly when the maximum is 0 and otherwise the winning
`[direction, percentage]` pair regardless of any threshold; with
`as_bool = true` it returns the winning direction's name exactly when its
percentage exceeds 50, and `None` otherwise. -/
theorem max_direction_characterization (pu pd pr pl : ℤ) :
    (max_direction false pu pd pr pl
       = if maxPercent pu pd pr pl = 0 then JSResult.none
         else JSResult.pair (firstMaxDir pu pd pr pl) (maxPercent pu pd pr pl))
    ∧ (max_direction true pu pd pr pl
       = if 50 < maxPercent pu pd pr pl then JSResult.str (firstMaxDir pu pd pr pl)
         else JSResult.none) := by
  have hh := sortDesc_four_head pu pd pr pl
  cases hcons : sortDesc [("up", pu), ("down", pd), ("right", pr), ("left", pl)] with
  | nil => rw [hcons] at hh; simp at hh
  | cons top rest =>
    rw [hcons] at hh
    simp only [List.head?_cons, Option.some.injEq] at hh
    subst hh
    constructor
    · simp only [max_direction, hcons]
      by_cases h0 : maxPercent pu pd pr pl = 0
      · rw [if_pos h0, if_pos h0]
      · rw [if_neg h0, if_neg h0]
        rfl
    · simp only [max_direction, hcons]
      by_cases h0 : maxPercent pu pd pr pl = 0
      · rw [if_pos h0, if_neg (by omega)]
      · rw [if_neg h0]
        rfl

/-- `Joystick.button` (src/joystick.py lines 70-73): the pin is configured
with a pull-up, so the pressed level is 0. -/
def button (level : ℤ) : Bool := level == 0

/-- `Joystick.get` (src/joystick.py lines 250-264): `level` is the current
reading of the button pin, the four percentages are the live direction
percentages fed to `max_direction`. -/
def Joystick.get (level : ℤ) (as_bool : Bool) (pu pd pr pl : ℤ) : JSResult :=
  if button level then JSResult.str "button" else max_direction as_bool pu pd pr pl

/-- C5: whenever the button input reads its pressed level, `get` returns the
string `"button"`, regardless of stick deflection and of `as_bool`; when the
button is not pressed, `get` returns exactly `max_direction as_bool`. -/
theorem get_button_priority (level : ℤ) (as_bool : Bool) (pu pd pr pl : ℤ) :
    (button level = true → Joystick.get level as_bool pu pd pr pl = JSResult.str "button")
    ∧ (button level = false → Joystick.get level as_bool pu pd pr pl
        = max_direction as_bool pu pd pr pl) := by
  constructor <;> intro h <;> simp [Joystick.get, h]

theorem get_button_priority_witness :
    Joystick.get 0 true 100 0 0 0 = JSResult.str "button"
    ∧ Joystick.get 1 false 7 8 9 10 = max_direction false 7 8 9 10 :=
  ⟨(get_button_priority 0 true 100 0 0 0).1 (by decide),
   (get_button_priority 1 false 7 8 9 10).2 (by decide)⟩

/-- An atom of the persisted calibration data: Python's `cal_data` is a list
of lists whose elements are strings (pose names) and integers. -/
inductive Lit where
  | str : String → Lit
  | int : ℤ → Lit
deriving DecidableEq

/-- `data[i][j]` on the nested calibration list, specialised to the integer
fields read by `load_calib` (out-of-range / non-integer access is modelled by
the default `0`; the Python code would raise there, and `load_calib` is only
ever applied to well-formed five-entry records). -/
def entryInt (data : List (List Lit)) (i j : ℕ) : ℤ :=
  match (data.getD i []).getD j (Lit.int 0) with
  | Lit.int n => n
  | Lit.str _ => 0

/-- Python's two-argument `round(x, 2)` on an exact rational. -/
def pyRound2 (q : ℚ) : ℚ := (pyRound (q * 100) : ℚ) / 100

/-- The instance fields computed by `Joystick.load_calib`
(src/joystick.py lines 119-148). -/
structure Calib where
  middle1 : ℤ
  middle1_range : List ℤ
  middle2 : ℤ
  middle2_range : List ℤ
  middle : List (List ℤ)
  leftval : ℤ
  leftaxis : ℤ
  rightval : ℤ
  rightaxis : ℤ
  upval : ℤ
  upaxis : ℤ
  downval : ℤ
  downaxis : ℤ
deriving DecidableEq

/-- `Joystick.load_calib` (src/joystick.py lines 119-148): derive the deadzone
bands and per-direction calibration values from the loaded record. -/
def load_calib (deadzone : ℤ) (data : List (List Lit)) : Calib :=
  let p_over := pyRound2 (((100 : ℚ) + (deadzone : ℚ)) / 100)
  let p_under := pyRound2 (((100 : ℚ) - (deadzone : ℚ)) / 100)
  let m1 := entryInt data 0 2
  let m2 := entryInt data 0 4
  let r1 := [pyRound ((m1 : ℚ) * p_under), m1, pyRound ((m1 : ℚ) * p_over)]
  let r2 := [pyRound ((m2 : ℚ) * p_under), m2, pyRound ((m2 : ℚ) * p_over)]
  { middle1 := m1, middle1_range := r1
    middle2 := m2, middle2_range := r2
    middle := [r1, r2]
    leftval := entryInt data 1 2, leftaxis := entryInt data 1 1
    rightval := entryInt data 2 2, rightaxis := entryInt data 2 1
    upval := entryInt data 3 2, upaxis := entryInt data 3 1
    downval := entryInt data 4 2, downaxis := entryInt data 4 1 }

lemma pyRound2_over (dz : ℤ) :
    pyRound2 (((100 : ℚ) + (dz : ℚ)) / 100) = 1 + (dz : ℚ) / 100 := by
  unfold pyRound2
  have h1 : ((100 : ℚ) + (dz : ℚ)) / 100 * 100 = (((100 + dz : ℤ)) : ℚ) := by
    push_cast
    field_simp
  rw [h1, pyRound_intCast]
  push_cast
  ring

lemma pyRound2_under (dz : ℤ) :
    pyRound2 (((100 : ℚ) - (dz : ℚ)) / 100) = 1 - (dz : ℚ) / 100 := by
  unfold pyRound2
  have h1 : ((100 : ℚ) - (dz : ℚ)) / 100 * 100 = (((100 - dz : ℤ)) : ℚ) := by
    push_cast
    field_simp
  rw [h1, pyRound_intCast]
  push_cast
  ring

/-- C3: for every loaded record, the deadzone band derived per axis at load
time is `[round(center * (1 - deadzone/100)), center,
round(center * (1 + deadzone/100))]` where `center` is that axis's MIDDLE raw
value (`data[0][2]` for axis 1, `data[0][4]` for axis 2) and `deadzone` is the
configured deadzone percentage (an integer, so the source's
`round((100 ± deadzone)/100, 2)` is exact). -/
theorem load_calib_deadzone_band (dz : ℤ) (data : List (List Lit)) :
    (load_calib dz data).middle1_range
      = [pyRound ((entryInt data 0 2 : ℚ) * (1 - (dz : ℚ) / 100)),
         entryInt data 0 2,
         pyRound ((entryInt data 0 2 : ℚ) * (1 + (dz : ℚ) / 100))]
    ∧ (load_calib dz data).middle2_range
      = [pyRound ((entryInt data 0 4 : ℚ) * (1 - (dz : ℚ) / 100)),
         entryInt data 0 4,
         pyRound ((entryInt data 0 4 : ℚ) * (1 + (dz : ℚ) / 100))] := by
  constructor <;>
    simp only [load_calib, pyRound2_over, pyRound2_under]

/-- The five calibration poses, in the fixed order used by `calibrate`. -/
inductive Pose where
  | MIDDLE : Pose
  | LEFT : Pose
  | RIGHT : Pose
  | UP : Pose
  | DOWN : Pose
deriving DecidableEq

def Pose.name : Pose → String
  | Pose.MIDDLE => "MIDDLE"
  | Pose.LEFT => "LEFT"
  | Pose.RIGHT => "RIGHT"
  | Pose.UP => "UP"
  | Pose.DOWN => "DOWN"

/-- Position of each pose's entry in `cal_data`. -/
def Pose.idx : Pose → ℕ
  | Pose.MIDDLE => 0
  | Pose.LEFT => 1
  | Pose.RIGHT => 2
  | Pose.UP => 3
  | Pose.DOWN => 4

/-- One iteration of the `calibrate` loop (src/joystick.py lines 92-107):
`read p` is the pair of instantaneous raw readings `(read_u16 of a1,
read_u16 of a2)` taken while the stick is held in pose `p`. -/
def calibEntry (read : Pose → ℤ × ℤ) (p : Pose) : List Lit :=
  if p = Pose.MIDDLE then
    [Lit.str p.name, Lit.int 1, Lit.int (read p).1, Lit.int 2, Lit.int (read p).2]
  else if |(32767.5 : ℚ) - ((read p).1 : ℚ)| > |(32767.5 : ℚ) - ((read p).2 : ℚ)| then
    [Lit.str p.name, Lit.int 1, Lit.int (read p).1]
  else
    [Lit.str p.name, Lit.int 2, Lit.int (read p).2]

/-- `Joystick.calibrate` (src/joystick.py lines 84-107): the `cal_data` list
built over the fixed pose order `[MIDDLE, LEFT, RIGHT, UP, DOWN]`. -/
def calibrate (read : Pose → ℤ × ℤ) : List (List Lit) :=
  [calibEntry read Pose.MIDDLE, calibEntry read Pose.LEFT, calibEntry read Pose.RIGHT,
   calibEntry read Pose.UP, calibEntry read Pose.DOWN]

lemma calibrate_getElem (read : Pose → ℤ × ℤ) (p : Pose) :
    (calibrate read)[p.idx]? = some (calibEntry read p) := by
  cases p <;> rfl

lemma calibEntry_axis1 (read : Pose → ℤ × ℤ) (p : Pose) (hp : p ≠ Pose.MIDDLE)
    (h : |(32767.5 : ℚ) - ((read p).1 : ℚ)| > |(32767.5 : ℚ) - ((read p).2 : ℚ)|) :
    calibEntry read p = [Lit.str p.name, Lit.int 1, Lit.int (read p).1] := by
  unfold calibEntry
  rw [if_neg hp, if_pos h]

lemma calibEntry_axis2 (read : Pose → ℤ × ℤ) (p : Pose) (hp : p ≠ Pose.MIDDLE)
    (h : ¬ |(32767.5 : ℚ) - ((read p).1 : ℚ)| > |(32767.5 : ℚ) - ((read p).2 : ℚ)|) :
    calibEntry read p = [Lit.str p.name, Lit.int 2, Lit.int (read p).2] := by
  unfold calibEntry
  rw [if_neg hp, if_neg h]

/-- C6: for every non-MIDDLE pose, the calibrator compares the two raw
readings' absolute deviations from the ADC's fixed native midpoint `32767.5`
(not from the measured MIDDLE sample); the axis with the strictly larger
deviation becomes the pose's dominant axis, and that axis's raw reading is
stored as the pose entry's `extreme_raw`. -/
theorem calibrate_dominant_axis (read : Pose → ℤ × ℤ) (p : Pose) (hp : p ≠ Pose.MIDDLE) :
    (|(32767.5 : ℚ) - ((read p).1 : ℚ)| > |(32767.5 : ℚ) - ((read p).2 : ℚ)| →
      (calibrate read)[p.idx]? = some [Lit.str p.name, Lit.int 1, Lit.int (read p).1])
    ∧ (|(32767.5 : ℚ) - ((read p).2 : ℚ)| > |(32767.5 : ℚ) - ((read p).1 : ℚ)| →
      (calibrate read)[p.idx]? = some [Lit.str p.name, Lit.int 2, Lit.int (read p).2]) :=
  ⟨fun h => by rw [calibrate_getElem, calibEntry_axis1 read p hp h],
   fun h => by rw [calibrate_getElem, calibEntry_axis2 read p hp (lt_asymm h)]⟩

def calibReadW6 : Pose → ℤ × ℤ := fun _ => (0, 30000)

theorem calibrate_dominant_axis_witness :
    (calibrate calibReadW6)[Pose.LEFT.idx]?
      = some [Lit.str Pose.LEFT.name, Lit.int 1, Lit.int (calibReadW6 Pose.LEFT).1] :=
  (calibrate_dominant_axis calibReadW6 Pose.LEFT (by decide)).1 (by norm_num [calibReadW6, abs])

/-- C10: during calibration of a non-MIDDLE pose, when axis 1's deviation from
the native midpoint `32767.5` is not strictly greater than axis 2's (in
particular when both deviations are exactly equal), axis 2 is selected as the
dominant axis and its raw reading becomes `extreme_raw`. -/
theorem calibrate_tie_axis2 (read : Pose → ℤ × ℤ) (p : Pose) (hp : p ≠ Pose.MIDDLE)
    (h : ¬ |(32767.5 : ℚ) - ((read p).1 : ℚ)| > |(32767.5 : ℚ) - ((read p).2 : ℚ)|) :
    (calibrate read)[p.idx]? = some [Lit.str p.name, Lit.int 2, Lit.int (read p).2] := by
  rw [calibrate_getElem, calibEntry_axis2 read p hp h]

def calibReadW10 : Pose → ℤ × ℤ := fun _ => (30000, 35535)

theorem calibrate_tie_axis2_witness :
    (calibrate calibReadW10)[Pose.UP.idx]?
      = some [Lit.str Pose.UP.name, Lit.int 2, Lit.int (calibReadW10 Pose.UP).2] :=
  calibrate_tie_axis2 calibReadW10 Pose.UP (by decide) (by norm_num [calibReadW10, abs])

/-- The single-quote character, written by Python's `repr` around strings. -/
def quoteChar : Char := Char.ofNat 39

def digitChar (d : ℕ) : Char := Char.ofNat (48 + d)

/-- Decimal digits of `n`, most significant first, prepended to `acc`; `fuel`
bounds the recursion depth (any `fuel ≥ n` is enough). -/
def natDecimalGo : ℕ → ℕ → List Char → List Char
  | 0, n, acc => digitChar n :: acc
  | fuel + 1, n, acc =>
    if n < 10 then digitChar n :: acc
    else natDecimalGo fuel (n / 10) (digitChar (n % 10) :: acc)

def natDecimal (n : ℕ) : List Char := natDecimalGo n n []

/-- Python's decimal rendering of an integer. -/
def intDecimal (n : ℤ) : List Char :=
  if n < 0 then '-' :: natDecimal (-n).toNat else natDecimal n.toNat

/-- Python's `repr` of one list element: strings are wrapped in single quotes
(the pose names contain no quote, so no escaping arises), integers are printed
in decimal. -/
def printLit : Lit → List Char
  | Lit.str s => quoteChar :: (s.data ++ [quoteChar])
  | Lit.int n => intDecimal n

/-- `", ".join`-style gluing of already-rendered elements. -/
def printItems : List (List Char) → List Char
  | [] => []
  | [x] => x
  | x :: xs => x ++ ',' :: ' ' :: printItems xs

def printList (items : List (List Char)) : List Char :=
  '[' :: (printItems items ++ [']'])

def printEntry (e : List Lit) : List Char := printList (e.map printLit)

def printRecord (r : List (List Lit)) : List Char := printList (r.map printEntry)

/-- The text written for `cal_data` by the f-string in `calibrate`
(src/joystick.py line 112): Python's list `repr`. -/
def serializeRecord (r : List (List Lit)) : String := String.mk (printRecord r)

def parseNatDigits (ds : List Char) : ℕ :=
  ds.foldl (fun a c => 10 * a + (c.toNat - 48)) 0

/-- Parser for one atom of the list literal: a single-quoted string (no
escapes, as produced by `printLit`) or an unsigned decimal integer. -/
def parseLit (cs : List Char) : Option (Lit × List Char) :=
  match cs with
  | [] => Option.none
  | c :: cs1 =>
    if c = quoteChar then
      match cs1.dropWhile (fun ch => ch ≠ quoteChar) with
      | [] => Option.none
      | _ :: rest =>
          some (Lit.str (String.mk (cs1.takeWhile (fun ch => ch ≠ quoteChar))), rest)
    else if c.isDigit then
      some (Lit.int ((parseNatDigits ((c :: cs1).takeWhile Char.isDigit) : ℕ) : ℤ),
            (c :: cs1).dropWhile Char.isDigit)
    else Option.none

/-- Parse `item (", " item)* "]"` after the opening bracket was consumed. -/
def parseItemsAux {α : Type} (p : List Char → Option (α × List Char)) :
    ℕ → List Char → Option (List α × List Char)
  | 0, _ => Option.none
  | fuel + 1, cs =>
    match p cs with
    | Option.none => Option.none
    | some (a, cs2) =>
      match cs2 with
      | [] => Option.none
      | c :: rest =>
        if c = ']' then some ([a], rest)
        else if c = ',' then
          match rest with
          | [] => Option.none
          | c2 :: rest2 =>
            if c2 = ' ' then
              match parseItemsAux p fuel rest2 with
              | some (as, rest3) => some (a :: as, rest3)
              | Option.none => Option.none
            else Option.none
        else Option.none

/-- Parse a bracketed, comma-separated list of whatever `p` parses. -/
def parseListOf {α : Type} (p : List Char → Option (α × List Char)) (fuel : ℕ) :
    List Char → Option (List α × List Char)
  | [] => Option.none
  | c :: rest =>
    if c = '[' then
      if rest.head? = some ']' then some ([], rest.tail)
      else parseItemsAux p fuel rest
    else Option.none

/-- Modelled from the source's `eval(raw_data)` (src/joystick.py line 62),
restricted to the nested-list-literal grammar in which calibration records are
written: a recursive-descent parser for a list of lists of quoted strings and
unsigned decimal integers. -/
def deserializeRecord (s : String) : Option (List (List Lit)) :=
  match parseListOf (parseListOf parseLit (s.data.length + 1)) (s.data.length + 1) s.data with
  | some (r, []) => some r
  | _ => Option.none

/-- Well-formedness of an atom for the round trip: the strings carry no quote
character (true of all pose names) and the integers are unsigned. -/
def LitWF : Lit → Prop
  | Lit.str s => quoteChar ∉ s.data
  | Lit.int n => 0 ≤ n

def EntryWF (e : List Lit) : Prop := ∀ l ∈ e, LitWF l

lemma digitChar_toNat {d : ℕ} (h : d < 10) : (digitChar d).toNat = 48 + d := by
  interval_cases d <;> rfl

lemma digitChar_isDigit {d : ℕ} (h : d < 10) : (digitChar d).isDigit = true := by
  interval_cases d <;> rfl

lemma natDecimalGo_eq (n : ℕ) : ∀ (fuel : ℕ) (acc : List Char), n ≤ fuel →
    natDecimalGo fuel n acc = natDecimal n ++ acc := by
  induction n using Nat.strong_induction_on with
  | _ n ih =>
    intro fuel acc hle
    cases fuel with
    | zero =>
      have hn : n = 0 := by omega
      subst hn
      simp [natDecimalGo, natDecimal]
    | succ f =>
      by_cases h10 : n < 10
      · have hsmall : natDecimal n = [digitChar n] := by
          cases n with
          | zero => rfl
          | succ m => simp [natDecimal, natDecimalGo, h10]
        simp [natDecimalGo, h10, hsmall]
      · have hrec : natDecimalGo (f + 1) n acc
            = natDecimalGo f (n / 10) (digitChar (n % 10) :: acc) := by
          simp [natDecimalGo, h10]
        rw [hrec, ih (n / 10) (by omega) f (digitChar (n % 10) :: acc) (by omega)]
        have hsplit : natDecimal n = natDecimal (n / 10) ++ [digitChar (n % 10)] := by
          obtain ⟨m, rfl⟩ : ∃ m, n = m + 1 := ⟨n - 1, by omega⟩
          show natDecimalGo (m + 1) (m + 1) [] = _
          have h1 : natDecimalGo (m + 1) (m + 1) []
              = natDecimalGo m ((m + 1) / 10) [digitChar ((m + 1) % 10)] := by
            simp [natDecimalGo, h10]
          rw [h1, ih ((m + 1) / 10) (by omega) m _ (by omega)]
        rw [hsplit, List.append_assoc]
        rfl

lemma natDecimal_small {n : ℕ} (h : n < 10) : natDecimal n = [digitChar n] := by
  cases n with
  | zero => rfl
  | succ m => simp [natDecimal, natDecimalGo, h]

lemma natDecimal_split {n : ℕ} (h : ¬ n < 10) :
    natDecimal n = natDecimal (n / 10) ++ [digitChar (n % 10)] := by
  obtain ⟨m, rfl⟩ : ∃ m, n = m + 1 := ⟨n - 1, by omega⟩
  show natDecimalGo (m + 1) (m + 1) [] = _
  have h1 : natDecimalGo (m + 1) (m + 1) []
      = natDecimalGo m ((m + 1) / 10) [digitChar ((m + 1) % 10)] := by
    simp [natDecimalGo, h]
  rw [h1, natDecimalGo_eq ((m + 1) / 10) m _ (by omega)]

lemma natDecimal_digits (n : ℕ) : ∀ c ∈ natDecimal n, c.isDigit = true := by
  induction n using Nat.strong_induction_on with
  | _ n ih =>
    by_cases h10 : n < 10
    · rw [natDecimal_small h10]
      intro c hc
      simp only [List.mem_singleton] at hc
      subst hc
      exact digitChar_isDigit h10
    · rw [natDecimal_split h10]
      intro c hc
      rcases List.mem_append.mp hc with h | h
      · exact ih (n / 10) (by omega) c h
      · simp only [List.mem_singleton] at h
        subst h
        exact digitChar_isDigit (by omega)

lemma natDecimal_ne_nil (n : ℕ) : natDecimal n ≠ [] := by
  by_cases h10 : n < 10
  · rw [natDecimal_small h10]
    simp
  · rw [natDecimal_split h10]
    simp

lemma foldl_natDecimal (n : ℕ) : ∀ a : ℕ,
    (natDecimal n).foldl (fun a c => 10 * a + (c.toNat - 48)) a
      = a * 10 ^ (natDecimal n).length + n := by
  induction n using Nat.strong_induction_on with
  | _ n ih =>
    intro a
    by_cases h10 : n < 10
    · rw [natDecimal_small h10]
      simp [digitChar_toNat h10]
      omega
    · rw [natDecimal_split h10, List.foldl_append]
      simp only [List.foldl_cons, List.foldl_nil, List.length_append,
        List.length_cons, List.length_nil]
      rw [ih (n / 10) (by omega) a, digitChar_toNat (by omega : n % 10 < 10)]
      have hmod : 48 + n % 10 - 48 = n % 10 := by omega
      rw [hmod, pow_succ, ← mul_assoc]
      generalize a * 10 ^ (natDecimal (n / 10)).length = A
      omega

lemma parseNatDigits_natDecimal (n : ℕ) : parseNatDigits (natDecimal n) = n := by
  have h := foldl_natDecimal n 0
  simpa [parseNatDigits] using h

lemma takeWhile_append_all {p : Char → Bool} :
    ∀ (l r : List Char), (∀ c ∈ l, p c = true) →
      (l ++ r).takeWhile p = l ++ r.takeWhile p
  | [], r, _ => by simp
  | c :: cs, r, h => by
    simp only [List.cons_append, List.takeWhile_cons]
    rw [if_pos (h c (by simp))]
    rw [takeWhile_append_all cs r (fun x hx => h x (by simp [hx]))]

lemma dropWhile_append_all {p : Char → Bool} :
    ∀ (l r : List Char), (∀ c ∈ l, p c = true) →
      (l ++ r).dropWhile p = r.dropWhile p
  | [], r, _ => by simp
  | c :: cs, r, h => by
    simp only [List.cons_append, List.dropWhile_cons]
    rw [if_pos (h c (by simp))]
    exact dropWhile_append_all cs r (fun x hx => h x (by simp [hx]))

lemma quoteChar_isDigit : quoteChar.isDigit = false := by decide

lemma parseLit_print (l : Lit) (rest : List Char) (hWF : LitWF l)
    (hrest : rest.head? = some ']' ∨ rest.head? = some ',') :
    parseLit (printLit l ++ rest) = some (l, rest) := by
  cases l with
  | str s =>
    have hq : quoteChar ∉ s.data := hWF
    have hall : ∀ c ∈ s.data, (decide (c ≠ quoteChar)) = true := by
      intro c hc
      simp only [decide_eq_true_eq]
      intro heq
      exact hq (heq ▸ hc)
    have hshape : printLit (Lit.str s) ++ rest
        = quoteChar :: (s.data ++ (quoteChar :: rest)) := by
      simp [printLit]
    rw [hshape]
    simp only [parseLit]
    rw [if_pos trivial,
        dropWhile_append_all s.data (quoteChar :: rest) hall,
        List.dropWhile_cons, if_neg (by simp),
        takeWhile_append_all s.data (quoteChar :: rest) hall,
        List.takeWhile_cons, if_neg (by simp), List.append_nil]
  | int n =>
    have hn : 0 ≤ n := hWF
    have hprint : printLit (Lit.int n) = natDecimal n.toNat := by
      simp [printLit, intDecimal, not_lt.mpr hn]
    obtain ⟨d, ds, hnd⟩ : ∃ d ds, natDecimal n.toNat = d :: ds := by
      cases h : natDecimal n.toNat with
      | nil => exact absurd h (natDecimal_ne_nil _)
      | cons d ds => exact ⟨d, ds, rfl⟩
    have hdigits := natDecimal_digits n.toNat
    rw [hnd] at hdigits
    have hd : d.isDigit = true := hdigits d (by simp)
    have hdq : ¬ d = quoteChar := by
      intro heq
      rw [heq, quoteChar_isDigit] at hd
      exact absurd hd (by simp)
    obtain ⟨c0, t, hr, hc0⟩ : ∃ c0 t, rest = c0 :: t ∧ c0.isDigit = false := by
      rcases hrest with h | h
      · cases rest with
        | nil => simp at h
        | cons a t =>
          simp only [List.head?_cons, Option.some.injEq] at h
          exact ⟨a, t, rfl, by rw [h]; rfl⟩
      · cases rest with
        | nil => simp at h
        | cons a t =>
          simp only [List.head?_cons, Option.some.injEq] at h
          exact ⟨a, t, rfl, by rw [h]; rfl⟩
    rw [hprint, hnd]
    simp only [List.cons_append, parseLit]
    rw [if_neg hdq, if_pos hd]
    rw [show d :: (ds ++ rest) = (d :: ds) ++ rest from rfl,
        takeWhile_append_all (d :: ds) rest (fun c hc => hdigits c hc),
        dropWhile_append_all (d :: ds) rest (fun c hc => hdigits c hc)]
    rw [hr, List.takeWhile_cons, if_neg (by simp [hc0]),
        List.dropWhile_cons, if_neg (by simp [hc0]), List.append_nil, ← hr]
    rw [← hnd, parseNatDigits_natDecimal, Int.toNat_of_nonneg hn]

lemma parseItemsAux_print {α : Type} (p : List Char → Option (α × List Char))
    (pr : α → List Char) (W : α → Prop)
    (H : ∀ a rest, W a → rest.head? = some ']' ∨ rest.head? = some ',' →
        p (pr a ++ rest) = some (a, rest)) :
    ∀ (items : List α) (fuel : ℕ) (rest : List Char),
      items ≠ [] → (∀ a ∈ items, W a) → items.length ≤ fuel →
      parseItemsAux p fuel (printItems (items.map pr) ++ (']' :: rest))
        = some (items, rest) := by
  intro items
  induction items with
  | nil => intro fuel rest hne _ _; exact absurd rfl hne
  | cons a as ih =>
    intro fuel rest _ hW hlen
    cases fuel with
    | zero => simp at hlen
    | succ f =>
      cases as with
      | nil =>
        show parseItemsAux p (f + 1) (printItems [pr a] ++ (']' :: rest)) = _
        rw [show printItems [pr a] = pr a from rfl]
        simp only [parseItemsAux]
        rw [H a (']' :: rest) (hW a (by simp)) (Or.inl rfl)]
        simp
      | cons b bs =>
        have hrec := ih f rest (by simp) (fun x hx => hW x (by simp [hx]))
          (by simp at hlen ⊢; omega)
        show parseItemsAux p (f + 1)
            (printItems (pr a :: (b :: bs).map pr) ++ (']' :: rest)) = _
        rw [show printItems (pr a :: (b :: bs).map pr)
              = pr a ++ (',' :: ' ' :: printItems ((b :: bs).map pr)) from rfl,
            List.append_assoc]
        simp only [List.cons_append]
        simp only [parseItemsAux]
        rw [H a (',' :: ' ' :: (printItems ((b :: bs).map pr) ++ (']' :: rest)))
            (hW a (by simp)) (Or.inr rfl)]
        simp only [List.map_cons] at hrec
        simp [hrec]

lemma parseListOf_print {α : Type} (p : List Char → Option (α × List Char))
    (pr : α → List Char) (W : α → Prop)
    (H : ∀ a rest, W a → rest.head? = some ']' ∨ rest.head? = some ',' →
        p (pr a ++ rest) = some (a, rest))
    (Hhead : ∀ a, W a → ∃ c cs, pr a = c :: cs ∧ ¬ c = ']') :
    ∀ (items : List α) (fuel : ℕ) (rest : List Char),
      (∀ a ∈ items, W a) → items.length ≤ fuel →
      parseListOf p fuel (printList (items.map pr) ++ rest) = some (items, rest) := by
  intro items fuel rest hW hlen
  cases items with
  | nil => simp [parseListOf, printList, printItems]
  | cons a as =>
    obtain ⟨c, cs, hpr, hc⟩ := Hhead a (hW a (by simp))
    have hhead : ∃ t, printItems ((a :: as).map pr) = c :: t := by
      cases as with
      | nil =>
        refine ⟨cs, ?_⟩
        rw [show printItems ((a :: ([] : List α)).map pr) = pr a from rfl, hpr]
      | cons b bs =>
        refine ⟨cs ++ (',' :: ' ' :: printItems ((b :: bs).map pr)), ?_⟩
        rw [show printItems ((a :: b :: bs).map pr)
              = pr a ++ (',' :: ' ' :: printItems ((b :: bs).map pr)) from rfl, hpr]
        simp
    obtain ⟨t, ht⟩ := hhead
    show parseListOf p fuel ('[' :: (printItems ((a :: as).map pr) ++ [']']) ++ rest) = _
    rw [show ('[' :: (printItems ((a :: as).map pr) ++ [']']) ++ rest)
          = '[' :: (printItems ((a :: as).map pr) ++ (']' :: rest)) from by simp]
    simp only [parseListOf]
    rw [if_pos trivial]
    have hcond : ¬ (printItems ((a :: as).map pr) ++ (']' :: rest)).head? = some ']' := by
      rw [ht]
      simp [hc]
    rw [if_neg hcond]
    exact parseItemsAux_print p pr W H (a :: as) fuel rest (by simp) hW hlen

lemma printLit_head (l : Lit) (hWF : LitWF l) :
    ∃ c cs, printLit l = c :: cs ∧ ¬ c = ']' := by
  cases l with
  | str s => exact ⟨quoteChar, s.data ++ [quoteChar], rfl, by decide⟩
  | int n =>
    have hn : 0 ≤ n := hWF
    have hprint : printLit (Lit.int n) = natDecimal n.toNat := by
      simp [printLit, intDecimal, not_lt.mpr hn]
    obtain ⟨d, ds, hnd⟩ : ∃ d ds, natDecimal n.toNat = d :: ds := by
      cases h : natDecimal n.toNat with
      | nil => exact absurd h (natDecimal_ne_nil _)
      | cons d ds => exact ⟨d, ds, rfl⟩
    have hd : d.isDigit = true := by
      have h := natDecimal_digits n.toNat
      rw [hnd] at h
      exact h d (by simp)
    refine ⟨d, ds, by rw [hprint, hnd], ?_⟩
    intro heq
    rw [heq] at hd
    exact absurd hd (by decide)

lemma parseEntry_print (fuel : ℕ) (e : List Lit) (rest : List Char)
    (hW : EntryWF e) (hfuel : e.length ≤ fuel) :
    parseListOf parseLit fuel (printEntry e ++ rest) = some (e, rest) :=
  parseListOf_print parseLit printLit LitWF
    (fun a r ha hr => parseLit_print a r ha hr) printLit_head e fuel rest hW hfuel

lemma mem_printItems_length : ∀ (xs : List (List Char)) (x : List Char), x ∈ xs →
    x.length ≤ (printItems xs).length
  | [], x, hx => by simp at hx
  | [y], x, hx => by
    simp only [List.mem_singleton] at hx
    subst hx
    exact le_refl _
  | y :: z :: zs, x, hx => by
    rcases List.mem_cons.mp hx with rfl | hx2
    · show x.length ≤ (x ++ ',' :: ' ' :: printItems (z :: zs)).length
      simp
    · have h := mem_printItems_length (z :: zs) x hx2
      show x.length ≤ (y ++ ',' :: ' ' :: printItems (z :: zs)).length
      simp only [List.length_append, List.length_cons]
      omega

lemma count_printItems_length : ∀ (xs : List (List Char)), (∀ x ∈ xs, x ≠ []) →
    xs.length ≤ (printItems xs).length
  | [], _ => by simp
  | [y], h => by
    have h1 : 1 ≤ y.length := List.length_pos.mpr (h y (by simp))
    show ([y] : List (List Char)).length ≤ y.length
    simpa using h1
  | y :: z :: zs, h => by
    have h1 : 1 ≤ y.length := List.length_pos.mpr (h y (by simp))
    have h2 := count_printItems_length (z :: zs) (fun x hx => h x (by simp [hx]))
    show (y :: z :: zs).length ≤ (y ++ ',' :: ' ' :: printItems (z :: zs)).length
    simp only [List.length_append, List.length_cons] at h2 ⊢
    omega

lemma printLit_ne_nil (l : Lit) : printLit l ≠ [] := by
  cases l with
  | str s => simp [printLit]
  | int n =>
    simp only [printLit, intDecimal]
    split_ifs
    · simp
    · exact natDecimal_ne_nil _

lemma printEntry_ne_nil (e : List Lit) : printEntry e ≠ [] := by
  simp [printEntry, printList]

lemma printEntry_length (e : List Lit) : e.length ≤ (printEntry e).length := by
  have h := count_printItems_length (e.map printLit) (by
    intro x hx
    simp only [List.mem_map] at hx
    obtain ⟨l, _, rfl⟩ := hx
    exact printLit_ne_nil l)
  simp only [List.length_map] at h
  simp only [printEntry, printList, List.length_cons, List.length_append]
  omega

lemma entry_length_le_printRecord (r : List (List Lit)) (e : List Lit) (he : e ∈ r) :
    e.length ≤ (printRecord r).length := by
  have h1 : e.length ≤ (printEntry e).length := printEntry_length e
  have h2 : (printEntry e).length ≤ (printItems (r.map printEntry)).length :=
    mem_printItems_length _ _ (List.mem_map_of_mem _ he)
  have h3 : (printItems (r.map printEntry)).length ≤ (printRecord r).length := by
    simp only [printRecord, printList, List.length_cons, List.length_append]
    omega
  omega

lemma record_length_le (r : List (List Lit)) : r.length ≤ (printRecord r).length := by
  have h := count_printItems_length (r.map printEntry) (by
    intro x hx
    simp only [List.mem_map] at hx
    obtain ⟨e, _, rfl⟩ := hx
    exact printEntry_ne_nil e)
  simp only [List.length_map] at h
  simp only [printRecord, printList, List.length_cons, List.length_append]
  omega

lemma deserialize_serialize (r : List (List Lit)) (hWF : ∀ e ∈ r, EntryWF e) :
    deserializeRecord (serializeRecord r) = some r := by
  have houter := parseListOf_print (parseListOf parseLit ((printRecord r).length + 1))
    printEntry (fun e => EntryWF e ∧ e.length ≤ (printRecord r).length + 1)
    (fun e rest hW _ => parseEntry_print _ e rest hW.1 hW.2)
    (fun e _ => ⟨'[', printItems (e.map printLit) ++ [']'], rfl, by decide⟩)
    r ((printRecord r).length + 1) []
    (fun e he => ⟨hWF e he, by have := entry_length_le_printRecord r e he; omega⟩)
    (by have := record_length_le r; omega)
  rw [List.append_nil] at houter
  rw [show printList (r.map printEntry) = printRecord r from rfl] at houter
  have hdata : (serializeRecord r).data = printRecord r := rfl
  unfold deserializeRecord
  rw [hdata, houter]

/-- The five-entry calibration record built by `calibrate` and persisted to
line 2: `[MIDDLE, 1, m1, 2, m2]` followed by the four directional entries
`[pose, axis, extreme_raw]`. -/
def mkCalRecord (m1 m2 la lv ra rv ua uv da dv : ℤ) : List (List Lit) :=
  [[Lit.str "MIDDLE", Lit.int 1, Lit.int m1, Lit.int 2, Lit.int m2],
   [Lit.str "LEFT", Lit.int la, Lit.int lv],
   [Lit.str "RIGHT", Lit.int ra, Lit.int rv],
   [Lit.str "UP", Lit.int ua, Lit.int uv],
   [Lit.str "DOWN", Lit.int da, Lit.int dv]]

/-- C7: for every CalibrationRecord — five pose entries of strings and
unsigned 16-bit integers — serializing it to its textual list-literal form and
deserializing that text yields the original record, field for field. -/
theorem record_roundtrip (m1 m2 la lv ra rv ua uv da dv : ℤ)
    (hm1 : 0 ≤ m1 ∧ m1 < 65536) (hm2 : 0 ≤ m2 ∧ m2 < 65536)
    (hla : 0 ≤ la ∧ la < 65536) (hlv : 0 ≤ lv ∧ lv < 65536)
    (hra : 0 ≤ ra ∧ ra < 65536) (hrv : 0 ≤ rv ∧ rv < 65536)
    (hua : 0 ≤ ua ∧ ua < 65536) (huv : 0 ≤ uv ∧ uv < 65536)
    (hda : 0 ≤ da ∧ da < 65536) (hdv : 0 ≤ dv ∧ dv < 65536) :
    deserializeRecord (serializeRecord (mkCalRecord m1 m2 la lv ra rv ua uv da dv))
      = some (mkCalRecord m1 m2 la lv ra rv ua uv da dv) := by
  apply deserialize_serialize
  intro e he l hl
  fin_cases he <;> fin_cases hl <;> simp only [LitWF] <;>
    first | decide | omega

theorem record_roundtrip_witness :
    deserializeRecord (serializeRecord (mkCalRecord 32768 32768 1 10000 1 55000 2 10000 2 55000))
      = some (mkCalRecord 32768 32768 1 10000 1 55000 2 10000 2 55000) :=
  record_roundtrip 32768 32768 1 10000 1 55000 2 10000 2 55000
    (by decide) (by decide) (by decide) (by decide) (by decide)
    (by decide) (by decide) (by decide) (by decide) (by decide)

/-- The `calibrate` loop body rewriting the file (src/joystick.py lines
109-115): `readlines`, replace `lines[1]` by the serialized record plus the
newline, write all lines back. -/
def save_lines (lines : List String) (data : List (List Lit)) : List String :=
  lines.set 1 (serializeRecord data ++ "\n")

/-- C8: when `calibrate` persists a new record and the write succeeds, only
line 2 of the calibration file (index 1) is replaced, with the serialized
record; every other line, including the sentinel line 1 and all lines after
line 2, is unchanged, and the number of lines is preserved (precondition: the
file has at least two lines). -/
theorem save_lines_frame (lines : List String) (data : List (List Lit))
    (h : 2 ≤ lines.length) :
    (save_lines lines data).length = lines.length
    ∧ (save_lines lines data)[1]? = some (serializeRecord data ++ "\n")
    ∧ ∀ i : ℕ, i ≠ 1 → (save_lines lines data)[i]? = lines[i]? := by
  refine ⟨List.length_set .., ?_, ?_⟩
  · rw [save_lines, List.getElem?_set_self (by omega)]
  · intro i hi
    rw [save_lines, List.getElem?_set_ne (by omega)]

theorem save_lines_frame_witness :
    (save_lines ["# Calibration (will be automatically written)", "[]",
        "# Created by Tueftler.py"] []).length = 3
    ∧ (save_lines ["# Calibration (will be automatically written)", "[]",
        "# Created by Tueftler.py"] [])[1]? = some (serializeRecord [] ++ "\n")
    ∧ ∀ i : ℕ, i ≠ 1 →
        (save_lines ["# Calibration (will be automatically written)", "[]",
          "# Created by Tueftler.py"] [])[i]?
        = ["# Calibration (will be automatically written)", "[]",
           "# Created by Tueftler.py"][i]? :=
  save_lines_frame ["# Calibration (will be automatically written)", "[]",
    "# Created by Tueftler.py"] [] (by decide)

theorem converter_monotone_saturates_witness :
    converter 31785 33751 60000 35000 ≤ converter 31785 33751 60000 40000
    ∧ converter 31785 33751 60000 61000 = 100
    ∧ converter 31785 33751 10000 25000 ≤ converter 31785 33751 10000 20000
    ∧ converter 31785 33751 10000 9000 = 100 :=
  ⟨(converter_monotone_saturates 31785 33751 32768 60000 (by decide) (by decide)).1
      35000 40000 (by decide) (by decide) (by decide) (by decide),
   (converter_monotone_saturates 31785 33751 32768 60000 (by decide) (by decide)).2.1
      61000 (by decide) (by decide),
   (converter_monotone_saturates 31785 33751 32768 10000 (by decide) (by decide)).2.2.1
      25000 20000 (by decide) (by decide) (by decide) (by decide),
   (converter_monotone_saturates 31785 33751 32768 10000 (by decide) (by decide)).2.2.2
      9000 (by decide) (by decide)⟩
